import Mathlib

/-!
Verification development for the web-content scraper (`extract_selenium.py`).

The Python source is shallowly embedded: the text normalizer `clean_text`,
the HTML extractor `extract_content` (over a parsed DOM tree, standing for
the BeautifulSoup document), the plain-text renderer `create_text_file`,
and the browser-session orchestration `fetch_with_selenium` (as a
step-failure oracle model).  Strings are modelled as `List Char`; Python
`len` on `str` counts code points, which matches `List.length` here.
-/

namespace Scrapper

/-! ### Text normalizer: `clean_text` -/

/-- Characters removed by `re.sub(r"[\x00-\x08\x0b-\x0c\x0e-\x1f\x7f-\x9f]", "", text)`. -/
def isCtrl (c : Char) : Bool :=
  c.val ≤ 0x08 || c.val = 0x0b || c.val = 0x0c ||
  (0x0e ≤ c.val && c.val ≤ 0x1f) || (0x7f ≤ c.val && c.val ≤ 0x9f)

/-- The character class matched by Python's `\s` on `str` (and by `str.strip()`
and `str.isspace()`): ASCII whitespace plus the Unicode white-space code points. -/
def isPySpace (c : Char) : Bool :=
  c = ' ' || c = '\t' || c = '\n' || c = '\r' || c.val = 0x0b || c.val = 0x0c ||
  (0x1c ≤ c.val && c.val ≤ 0x1f) || c.val = 0x85 || c.val = 0xa0 ||
  c.val = 0x1680 || (0x2000 ≤ c.val && c.val ≤ 0x200a) ||
  c.val = 0x2028 || c.val = 0x2029 || c.val = 0x202f || c.val = 0x205f || c.val = 0x3000

/-- `re.sub(r"\s+", " ", text)`: every maximal run of whitespace becomes one
ASCII space.  The flag records whether the previous character was part of a
whitespace run already replaced. -/
def collapseAux : Bool → List Char → List Char
  | _, [] => []
  | inRun, c :: cs =>
    if isPySpace c then
      if inRun then collapseAux true cs else ' ' :: collapseAux true cs
    else c :: collapseAux false cs

def collapseWs (l : List Char) : List Char := collapseAux false l

/-- Remove the trailing whitespace run (the right half of `str.strip()`). -/
def stripRight : List Char → List Char
  | [] => []
  | c :: cs =>
    match stripRight cs with
    | [] => if isPySpace c then [] else [c]
    | r => c :: r

/-- `str.strip()`: remove leading and trailing whitespace. -/
def stripPy (l : List Char) : List Char := stripRight (l.dropWhile isPySpace)

/-- `str.replace(old, new)` for single characters. -/
def replaceChar (old new : Char) (l : List Char) : List Char :=
  l.map (fun c => if c = old then new else c)

/-- `str.replace(old, "")` for a single character. -/
def removeChar (old : Char) (l : List Char) : List Char :=
  l.filter (fun c => c ≠ old)

/-- `clean_text` from the source: control-character stripping, whitespace
collapsing, NBSP/zero-width-space/BOM handling, and a final strip.
The `if not text: return ""` guard is the empty case. -/
def cleanText (t : List Char) : List Char :=
  if t = [] then []
  else
    let t1 := t.filter (fun c => !(isCtrl c))
    let t2 := collapseWs t1
    let t3 := removeChar '\uFEFF' (removeChar '\u200B' (replaceChar '\u00A0' ' ' t2))
    stripPy t3

/-! ### DOM model and the BeautifulSoup operations used by the source

`Node` stands for a parsed HTML element tree (tag name, attributes,
children) or a text node; a document is the list of top-level nodes.
`html.parser` is lenient but does not invent elements, so a document with
no `<body>` really has no body node. -/

mutual
inductive Node where
  | elem (tag : String) (attrs : List (String × String)) (children : NodeList)
  | text (s : String)
inductive NodeList where
  | nil
  | cons (n : Node) (ns : NodeList)
end

/-- Build a `NodeList` from a Lean list literal. -/
def NodeList.ofList : List Node → NodeList
  | [] => .nil
  | n :: ns => .cons n (NodeList.ofList ns)

/-- Element constructor taking its children as a plain list. -/
def el (tag : String) (attrs : List (String × String)) (children : List Node) : Node :=
  .elem tag attrs (NodeList.ofList children)

/-- Text-node constructor. -/
def tx (s : String) : Node := .text s

def tagName : Node → String
  | .elem t _ _ => t
  | .text _ => ""

def childrenOf : Node → NodeList
  | .elem _ _ cs => cs
  | .text _ => .nil

/-- First value of an attribute, as `Tag.get`. -/
def attrOf (n : Node) (key : String) : Option String :=
  match n with
  | .elem _ attrs _ =>
    match attrs.find? (fun kv => kv.1 = key) with
    | some kv => some kv.2
    | none => none
  | .text _ => none

/-- Tags removed up front: `soup(["script", "style", "noscript", "iframe", "svg", "path"])`
followed by `tag.decompose()`. -/
def badTags : List String := ["script", "style", "noscript", "iframe", "svg", "path"]

/-- Remove every element whose tag is in `badTags`, together with its subtree. -/
def scrubList : NodeList → NodeList
  | .nil => .nil
  | .cons (.text s) ns => .cons (.text s) (scrubList ns)
  | .cons (.elem t a cs) ns =>
    if t ∈ badTags then scrubList ns
    else .cons (.elem t a (scrubList cs)) (scrubList ns)

/-- `soup.find(...)`: the first element (in document pre-order) satisfying the
filter.  Text nodes are never matched, mirroring tag filters. -/
def findIn (p : Node → Bool) : NodeList → Option Node
  | .nil => none
  | .cons (.text _) ns => findIn p ns
  | .cons (.elem t a cs) ns =>
    if p (.elem t a cs) then some (.elem t a cs)
    else
      match findIn p cs with
      | some m => some m
      | none => findIn p ns

/-- `find_all(...)`: all elements satisfying the filter, in document pre-order. -/
def findAllIn (p : Node → Bool) : NodeList → List Node
  | .nil => []
  | .cons (.text _) ns => findAllIn p ns
  | .cons (.elem t a cs) ns =>
    (if p (.elem t a cs) then [Node.elem t a cs] else []) ++
      findAllIn p cs ++ findAllIn p ns

/-- The raw text segments below a list of nodes, in document order. -/
def textSegs : NodeList → List String
  | .nil => []
  | .cons (.text s) ns => s :: textSegs ns
  | .cons (.elem _ _ cs) ns => textSegs cs ++ textSegs ns

/-- `get_text()`: concatenation of all text segments. -/
def getText (n : Node) : List Char :=
  match n with
  | .text s => s.data
  | .elem _ _ cs => ((textSegs cs).map String.data).flatten

/-- `get_text(strip=True)`: each segment stripped individually, empties
contributing nothing, joined with the empty separator. -/
def getTextStrip (n : Node) : List Char :=
  match n with
  | .text s => stripPy s.data
  | .elem _ _ cs => ((textSegs cs).map (fun s => stripPy s.data)).flatten

def tagIs (t : String) (n : Node) : Bool := tagName n = t

/-- Case-insensitive substring test, the effect of `re.compile(pat, re.I).search`
for a literal alternative `pat`. -/
def containsSub (s pat : List Char) : Bool :=
  match s with
  | [] => pat.isEmpty
  | _ :: cs => pat.isPrefixOf s || containsSub cs pat

def lowerStr (s : String) : List Char := s.data.map Char.toLower

/-- `soup.find(id=re.compile(r"content|main", re.I))`. -/
def idMatches (n : Node) : Bool :=
  match attrOf n "id" with
  | some v => containsSub (lowerStr v) "content".data || containsSub (lowerStr v) "main".data
  | none => false

/-- Whitespace-split of a `class` attribute value into the class list. -/
def splitWsAux : List Char → List Char → List (List Char)
  | [], acc => if acc = [] then [] else [acc.reverse]
  | c :: cs, acc =>
    if isPySpace c then
      if acc = [] then splitWsAux cs [] else acc.reverse :: splitWsAux cs []
    else splitWsAux cs (c :: acc)

def classList (v : String) : List (List Char) := splitWsAux v.data []

/-- `soup.find(class_=re.compile(r"content|main|wrapper", re.I))`: the regex is
matched against each class of the multi-valued attribute. -/
def classMatches (n : Node) : Bool :=
  match attrOf n "class" with
  | some v =>
    (classList v).any (fun cl =>
      containsSub (cl.map Char.toLower) "content".data ||
      containsSub (cl.map Char.toLower) "main".data ||
      containsSub (cl.map Char.toLower) "wrapper".data)
  | none => false

/-- Python `a or b` over find results: the first non-`None` one. -/
def pyOr (a b : Option Node) : Option Node :=
  match a with
  | some n => some n
  | none => b

/-- The `main_content` fallback chain from the source, literally:
`soup.find("main") or soup.find("article") or soup.find(id=...) or
soup.find(class_=...) or soup.find("body")`. -/
def mainContentOf (d : NodeList) : Option Node :=
  pyOr (findIn (tagIs "main") d)
    (pyOr (findIn (tagIs "article") d)
      (pyOr (findIn idMatches d)
        (pyOr (findIn classMatches d)
          (findIn (tagIs "body") d))))

/-- The root-selection chain as the spec words it: an ordered list of selector
predicates, evaluated in sequence, first match wins. -/
def rootSelectors : List (NodeList → Option Node) :=
  [findIn (tagIs "main"), findIn (tagIs "article"), findIn idMatches,
   findIn classMatches, findIn (tagIs "body")]

def firstMatch : List (NodeList → Option Node) → NodeList → Option Node
  | [], _ => none
  | f :: fs, d =>
    match f d with
    | some n => some n
    | none => firstMatch fs d

def selectRootSpec (d : NodeList) : Option Node := firstMatch rootSelectors d

/-! ### Content extractor: `extract_content` -/

/-- One entry of `content_structure`: the dict `{"type": ..., "text": ...}`. -/
structure Block where
  btype : String
  text : List Char
deriving DecidableEq, Repr

def headingTags : List String := ["h1", "h2", "h3", "h4", "h5", "h6"]

/-- The tag list passed to `main_content.find_all([...])`. -/
def targetTags : List String :=
  ["h1", "h2", "h3", "h4", "h5", "h6", "p", "li", "td", "blockquote", "div", "span", "a"]

/-- The loop body of the traversal (source lines 167-180), acting on the pair
(`content_structure`, `processed_texts`).  The set is a membership-only list. -/
def visitStep (st : List Block × List (List Char)) (element : Node) :
    List Block × List (List Char) :=
  let text := cleanText (getTextStrip element)
  if text = [] ∨ text.length < 10 ∨ text ∈ st.2 then st
  else if text.length < 20 ∧ tagName element ∈ (["a", "span", "div"] : List String) then st
  else
    let procs := text :: st.2
    if tagName element ∈ headingTags then
      (st.1 ++ [⟨tagName element, text⟩], procs)
    else if 30 < text.length then
      (st.1 ++ [⟨"paragraph", text⟩], procs)
    else (st.1, procs)

/-- The title text emitted by lines 128-133, if any: first `<title>` element of
the (already scrubbed) soup whose cleaned text is non-empty of length > 3. -/
def emittedTitle (soup : NodeList) : Option (List Char) :=
  match findIn (tagIs "title") soup with
  | some t =>
    let title_text := cleanText (getText t)
    if title_text ≠ [] ∧ 3 < title_text.length then some title_text else none
  | none => none

/-- The meta-description text emitted by lines 135-140, if any: first
`<meta name="description">` with a non-empty `content` attribute whose cleaned
text is non-empty of length > 10. -/
def emittedDesc (soup : NodeList) : Option (List Char) :=
  match findIn (fun n => tagIs "meta" n && attrOf n "name" == some "description") soup with
  | some m =>
    match attrOf m "content" with
    | some c =>
      if c ≠ "" then
        let desc_text := cleanText c.data
        if desc_text ≠ [] ∧ 10 < desc_text.length then some desc_text else none
      else none
    | none => none
  | none => none

/-- `content_structure` and `processed_texts` after the title and description
steps, before the traversal. -/
def initState (soup : NodeList) : List Block × List (List Char) :=
  let s1 : List Block × List (List Char) :=
    match emittedTitle soup with
    | some tt => ([⟨"title", tt⟩], [tt])
    | none => ([], [])
  match emittedDesc soup with
  | some dt => (s1.1 ++ [⟨"paragraph", dt⟩], dt :: s1.2)
  | none => s1

/-- `extract_content`, also exposing the final `processed_texts`.
`none` models the `AttributeError` raised when the whole `main_content`
fallback chain yields `None` and `.find_all` is called on it. -/
def extract_full (doc : NodeList) : Option (List Block × List (List Char)) :=
  let soup := scrubList doc
  match mainContentOf soup with
  | none => none
  | some root =>
    some (List.foldl visitStep (initState soup)
      (findAllIn (fun n => tagName n ∈ targetTags) (childrenOf root)))

def extract_content (doc : NodeList) : Option (List Block) :=
  (extract_full doc).map Prod.fst

/-! ### Plain-text renderer: `create_text_file` -/

def upperStr (l : List Char) : List Char := l.map Char.toUpper

/-- `int(item["type"][1])` for a heading tag such as `"h3"`. -/
def headingLevel (t : String) : Nat :=
  match t.data with
  | _ :: c :: _ => c.toNat - '0'.toNat
  | _ => 0

/-- The lines one block contributes to `text_content`. -/
def itemLines (item : Block) : List (List Char) :=
  if item.btype = "title" then
    [List.replicate 80 '=', upperStr item.text, List.replicate 80 '=', []]
  else if item.btype ∈ (["h1", "h2", "h3", "h4"] : List String) then
    [[], List.replicate (headingLevel item.btype) '#' ++ ' ' :: item.text, []]
  else if item.btype = "paragraph" then
    [item.text, []]
  else []

/-- `create_text_file`: accumulate each block's lines, then `"\n".join(...)`. -/
def create_text_file (content_structure : List Block) : List Char :=
  List.intercalate ['\n'] (content_structure.flatMap itemLines)

/-! ### Fetch orchestration: `setup_driver` / `fetch_with_selenium`

The browser session is modelled by an oracle saying which external step
succeeds.  A constructor either returns an instance or creates none (atomic
creation); instances are identified by an id, and the model records which
ids were created and which were quit. -/

structure FetchOracle where
  /-- `webdriver.Chrome(service=Service("/usr/bin/chromedriver"), options=...)` succeeds. -/
  serviceChromeOk : Bool
  /-- fallback `webdriver.Chrome(options=...)` succeeds. -/
  plainChromeOk : Bool
  /-- `webdriver.Chrome(service=Service(ChromeDriverManager().install()), ...)` succeeds. -/
  managerChromeOk : Bool
  /-- the `navigator.webdriver` override `driver.execute_script(...)` inside
  `setup_driver` succeeds. -/
  stealthScriptOk : Bool
  /-- `driver.get(url)` succeeds. -/
  getOk : Bool
  /-- the `WebDriverWait(...).until(...)` body wait succeeds within the timeout. -/
  waitOk : Bool
  /-- the three scroll `execute_script` calls succeed. -/
  scrollOk : Bool
deriving DecidableEq, Repr

/-- The try/except constructor chain of `setup_driver` (lines 38-50): the first
successful constructor yields the instance. -/
def createChrome (o : FetchOracle) : Option Nat :=
  if o.serviceChromeOk then some 0
  else if o.plainChromeOk then some 0
  else if o.managerChromeOk then some 0
  else none

/-- `setup_driver`: create an instance, then run the stealth script on it.
Returns the instance handed back to the caller (if any) and the list of
instances that were created. -/
def setup_driver (o : FetchOracle) : Option Nat × List Nat :=
  match createChrome o with
  | none => (none, [])
  | some d => if o.stealthScriptOk then (some d, [d]) else (none, [d])

structure FetchResult where
  ok : Bool
  created : List Nat
  quitted : List Nat
deriving DecidableEq, Repr

/-- `fetch_with_selenium`: `driver = None; try: driver = setup_driver(); ...
finally: if driver: driver.quit()`.  If `setup_driver` raises, `driver` is
still `None` and the `finally` block quits nothing; once `driver` is bound,
every path (success or exception in get/wait/scroll) runs `driver.quit()`. -/
def fetch_with_selenium (o : FetchOracle) : FetchResult :=
  match setup_driver o with
  | (none, cs) => { ok := false, created := cs, quitted := [] }
  | (some d, cs) =>
    { ok := o.getOk && o.waitOk && o.scrollOk, created := cs, quitted := [d] }

/-! ### Concrete documents used by the end-to-end claims -/

/-- The parsed tree of
`<html><head><title>Acme Co</title></head><body><h1>Welcome to Acme</h1>
<p>Acme builds widgets for the modern era, delivering quality.</p>
<div>Nav</div></body></html>`. -/
def acmeDoc : NodeList :=
  NodeList.ofList
    [el "html" []
      [el "head" [] [el "title" [] [tx "Acme Co"]],
       el "body" []
         [el "h1" [] [tx "Welcome to Acme"],
          el "p" [] [tx "Acme builds widgets for the modern era, delivering quality."],
          el "div" [] [tx "Nav"]]]]

def acmeBlocks : List Block :=
  [⟨"title", "Acme Co".data⟩,
   ⟨"h1", "Welcome to Acme".data⟩,
   ⟨"paragraph", "Acme builds widgets for the modern era, delivering quality.".data⟩]

/-- A page whose `<title>` text coincides with its meta description. -/
def dupTitleDescDoc : NodeList :=
  NodeList.ofList
    [el "html" []
      [el "head" []
        [el "title" [] [tx "Hello World Page"],
         el "meta" [("name", "description"), ("content", "Hello World Page")] []],
       el "body" [] [el "p" [] [tx "Body copy that is long enough to be a paragraph here."]]]]

def dupTitleDescBlocks : List Block :=
  [⟨"title", "Hello World Page".data⟩,
   ⟨"paragraph", "Hello World Page".data⟩,
   ⟨"paragraph", "Body copy that is long enough to be a paragraph here.".data⟩]

/-- A `<p>` whose mid-length text (10 ≤ len ≤ 30) is dropped without being
emitted, followed by an `<h1>` carrying the identical text. -/
def droppedDupDoc : NodeList :=
  NodeList.ofList
    [el "html" []
      [el "body" []
        [el "p" [] [tx "Fifteen chars!!"],
         el "h1" [] [tx "Fifteen chars!!"]]]]

/-- `extract_full droppedDupDoc`: no block emitted, yet the text sits in the
dedup set. -/
def droppedDupPair : List Block × List (List Char) := ([], ["Fifteen chars!!".data])

/-- A state whose dedup set already holds a text, and an element carrying it. -/
def dupSeenState : List Block × List (List Char) := ([], ["Seen text already".data])

def dupSeenElem : Node := el "p" [] [tx "Seen text already"]

/-- Final `processed_texts` for `acmeDoc` (most recently added first). -/
def acmeProcs : List (List Char) :=
  ["Acme builds widgets for the modern era, delivering quality.".data,
   "Welcome to Acme".data,
   "Acme Co".data]

def h5Block : Block := ⟨"h5", "Deep Section Heading".data⟩

def h6Block : Block := ⟨"h6", "Deeper Section Heading".data⟩

/-- Every constructor works, but the stealth script in `setup_driver` fails. -/
def leakOracle : FetchOracle :=
  { serviceChromeOk := true, plainChromeOk := true, managerChromeOk := true,
    stealthScriptOk := false, getOk := true, waitOk := true, scrollOk := true }

def allOkOracle : FetchOracle :=
  { serviceChromeOk := true, plainChromeOk := true, managerChromeOk := true,
    stealthScriptOk := true, getOk := true, waitOk := true, scrollOk := true }

/-! ### Auxiliary predicates used by the invariant proofs -/

/-- Shape of a whitespace-collapsed string: every whitespace character is an
ASCII space not preceded by another space.  The flag says whether the previous
character was a space. -/
def spacedOkAux : Bool → List Char → Bool
  | _, [] => true
  | prevSp, c :: cs =>
    if isPySpace c then (!prevSp) && (c == ' ') && spacedOkAux true cs
    else spacedOkAux false cs

/-- What the traversal loop can append: a heading block of length ≥ 10 or a
paragraph block of length > 30. -/
def emittedOk (b : Block) : Prop :=
  (b.btype ∈ headingTags ∧ 10 ≤ b.text.length) ∨
  (b.btype = "paragraph" ∧ 30 < b.text.length)

/-- Keep-predicate for blocks that are not `h5`/`h6`. -/
def notH56 (b : Block) : Bool := !(b.btype == "h5" || b.btype == "h6")

/-- The per-block length policy: non-empty, with threshold 3 for the title
block and 10 for everything else. -/
def blockLenOk (b : Block) : Bool :=
  !(b.text.isEmpty) &&
    (if b.btype = "title" then decide (3 < b.text.length) else decide (10 ≤ b.text.length))

/-! ## Theorems -/

/-- C10: the end-to-end Acme scenario.  `extract_content` on the parsed tree of
`<html><head><title>Acme Co</title></head><body><h1>Welcome to Acme</h1>
<p>Acme builds widgets for the modern era, delivering quality.</p>
<div>Nav</div></body></html>` returns exactly the title block, the `h1`
block and the paragraph block, in that order; the `div` text `Nav` (length
3 < 10) is dropped. -/
theorem C10_acme_scenario : extract_content acmeDoc = some acmeBlocks := by decide

/-- C1 fails: on a page whose meta description equals its title, the title
block and the description-derived paragraph block carry byte-identical text,
because the description is emitted without a dedup check (source lines
135-140 never test `desc_text in processed_texts`). -/
theorem C1_counterexample :
    extract_content dupTitleDescDoc = some dupTitleDescBlocks ∧
    ¬ (dupTitleDescBlocks.map Block.text).Nodup := by
  constructor
  · decide
  · decide

/-- C2 fails: on a document with no `<body>` and no other content root (here,
the empty document, i.e. an empty or element-free HTML string), every branch of
the `main_content` fallback chain is `None`, and `main_content.find_all(...)`
raises `AttributeError` (modelled by `none`) instead of returning an empty
structure. -/
theorem C2_counterexample : extract_content NodeList.nil = none := rfl

/-- C2, amended: `extract_content` returns normally exactly when the
`main_content` fallback chain finds a root (in particular whenever the
document has a `<body>`); with a root present, nothing qualifying still
yields a normal (empty) result rather than an error. -/
theorem C2_amended_total_iff_root :
    ∀ doc : NodeList,
      (extract_content doc).isSome = (mainContentOf (scrubList doc)).isSome := by
  intro doc
  unfold extract_content extract_full
  cases h : mainContentOf (scrubList doc) <;> simp [h]

/-- C3 fails: in `droppedDupDoc`, the `<p>` text (length 15) passes the length
and tag filters, is added to `processed_texts` (line 175) although no block is
emitted for it (15 ≤ 30 and `p` is not a heading), and the subsequent `<h1>`
carrying the identical text is then suppressed by the dedup check — the final
state has an empty block list but a non-empty dedup set, so texts are not
added "exactly when a block carrying it is emitted", and the `h1` was
suppressed by a text that was never emitted. -/
theorem C3_counterexample :
    extract_full droppedDupDoc = some droppedDupPair ∧
    droppedDupPair.2 ≠ droppedDupPair.1.map Block.text := by
  constructor
  · decide
  · decide

/-- C6 fails: the plain-text renderer's branch list is `["h1","h2","h3","h4"]`,
so `heading5`/`heading6` blocks contribute no lines at all — they are dropped,
not rendered as 5 or 6 `#` characters. -/
theorem C6_counterexample :
    create_text_file [h5Block] = [] ∧
    create_text_file [h5Block] ≠
      List.intercalate ['\n'] [[], List.replicate 5 '#' ++ ' ' :: h5Block.text, []] ∧
    create_text_file [h6Block] = [] := by
  refine ⟨by decide, by decide, by decide⟩

/-- C8: the content root is the first match of the ordered fallback chain
`<main>`, `<article>`, id matching `content|main` (case-insensitive search),
class matching `content|main|wrapper` (case-insensitive search), then
`<body>`; the source's `or`-chain equals the spec's ordered-predicate-list
formulation. -/
theorem C8_root_selection_order : ∀ d : NodeList, mainContentOf d = selectRootSpec d := by
  intro d
  cases h1 : findIn (tagIs "main") d <;>
    cases h2 : findIn (tagIs "article") d <;>
      cases h3 : findIn idMatches d <;>
        cases h4 : findIn classMatches d <;>
          cases h5 : findIn (tagIs "body") d <;>
            simp [mainContentOf, selectRootSpec, rootSelectors, firstMatch, pyOr,
              h1, h2, h3, h4, h5]

/-- C9 fails: if the browser instance is constructed but the
`navigator.webdriver` override script inside `setup_driver` then fails, the
exception propagates while `fetch_with_selenium`'s `driver` variable is still
`None`, so the `finally` block quits nothing and the created instance (id 0)
is never torn down. -/
theorem C9_counterexample :
    fetch_with_selenium leakOracle =
      { ok := false, created := [0], quitted := [] } ∧
    0 ∈ (fetch_with_selenium leakOracle).created ∧
    0 ∉ (fetch_with_selenium leakOracle).quitted := by
  refine ⟨rfl, by decide, by decide⟩

/-- C9, amended: teardown is guaranteed on every exit path that occurs after
`setup_driver` hands the instance back — i.e. whenever the in-setup stealth
script does not fail, every created instance is quit, regardless of which of
the later steps (navigate, wait, scroll) fails. -/
theorem C9_amended_teardown :
    ∀ o : FetchOracle, o.stealthScriptOk = true →
      (fetch_with_selenium o).created ⊆ (fetch_with_selenium o).quitted := by
  intro o h
  unfold fetch_with_selenium setup_driver
  cases hc : createChrome o <;> simp [h]

/-- Witness for C9: on the all-success oracle the created instance is quit. -/
theorem C9_witness :
    (fetch_with_selenium allOkOracle).created ⊆ (fetch_with_selenium allOkOracle).quitted :=
  C9_amended_teardown allOkOracle rfl

lemma itemLines_h56 (b : Block) (h : b.btype = "h5" ∨ b.btype = "h6") : itemLines b = [] := by
  rcases h with h | h <;> simp [itemLines, h]

lemma flatMap_itemLines_filter_h56 (bs : List Block) :
    (bs.filter notH56).flatMap itemLines = bs.flatMap itemLines := by
  induction bs with
  | nil => rfl
  | cons b bs ih =>
    cases hb : notH56 b
    · have h0 : itemLines b = [] := by
        apply itemLines_h56
        have hb2 : (b.btype == "h5" || b.btype == "h6") = true := by
          have := congrArg Bool.not hb
          simpa [notH56] using this
        rcases Bool.or_eq_true_iff.mp hb2 with h | h
        · exact Or.inl (by simpa using h)
        · exact Or.inr (by simpa using h)
      simp only [List.filter_cons, hb, List.flatMap_cons, h0, List.nil_append, ih,
        Bool.false_eq_true, if_false]
    · simp only [List.filter_cons, hb, if_true, List.flatMap_cons, ih]

/-- C6, amended: the plain-text renderer drops `heading5` and `heading6`
blocks entirely (its branch list stops at `h4`, the same level cap as the
rich-text renderer): deleting all `h5`/`h6` blocks from a structure does not
change the rendered output. -/
theorem C6_amended_h56_dropped :
    ∀ bs : List Block,
      create_text_file (bs.filter notH56) = create_text_file bs := by
  intro bs
  unfold create_text_file
  rw [flatMap_itemLines_filter_h56]

/-! ### Shape lemmas about whitespace collapsing and stripping -/

lemma isPySpace_space : isPySpace ' ' = true := rfl

lemma collapseAux_cons_space_true {c : Char} (hc : isPySpace c = true) (cs : List Char) :
    collapseAux true (c :: cs) = collapseAux true cs := by
  simp [collapseAux, hc]

lemma collapseAux_cons_space_false {c : Char} (hc : isPySpace c = true) (cs : List Char) :
    collapseAux false (c :: cs) = ' ' :: collapseAux true cs := by
  simp [collapseAux, hc]

lemma collapseAux_cons_nonspace {c : Char} (hc : isPySpace c = false) (b : Bool)
    (cs : List Char) : collapseAux b (c :: cs) = c :: collapseAux false cs := by
  simp [collapseAux, hc]

lemma spacedOkAux_cons_space {c : Char} (hc : isPySpace c = true) (b : Bool)
    (cs : List Char) :
    spacedOkAux b (c :: cs) = ((!b) && (c == ' ') && spacedOkAux true cs) := by
  simp [spacedOkAux, hc]

lemma spacedOkAux_cons_nonspace {c : Char} (hc : isPySpace c = false) (b : Bool)
    (cs : List Char) : spacedOkAux b (c :: cs) = spacedOkAux false cs := by
  simp [spacedOkAux, hc]

lemma stripRight_cons_nil {cs : List Char} (hr : stripRight cs = []) (c : Char) :
    stripRight (c :: cs) = if isPySpace c then [] else [c] := by
  unfold stripRight
  rw [hr]

lemma stripRight_cons_cons {cs : List Char} {r0 : Char} {rs : List Char}
    (hr : stripRight cs = r0 :: rs) (c : Char) :
    stripRight (c :: cs) = c :: r0 :: rs := by
  unfold stripRight
  rw [hr]

lemma spacedOkAux_mono {l : List Char} (h : spacedOkAux true l = true) :
    spacedOkAux false l = true := by
  cases l with
  | nil => rfl
  | cons c cs =>
    by_cases hc : isPySpace c = true
    · simp [spacedOkAux, hc] at h
    · simp [spacedOkAux, hc] at h ⊢
      exact h

lemma collapseAux_spacedOk (l : List Char) :
    spacedOkAux false (collapseAux false l) = true ∧
      spacedOkAux true (collapseAux true l) = true := by
  induction l with
  | nil => exact ⟨rfl, rfl⟩
  | cons c cs ih =>
    by_cases hc : isPySpace c = true
    · refine ⟨?_, ?_⟩
      · simp only [collapseAux, hc, if_true]
        simp [spacedOkAux, show isPySpace ' ' = true from rfl]
        exact ih.2
      · simp only [collapseAux, hc, if_true]
        exact ih.2
    · have hc' : isPySpace c = false := by simpa using hc
      refine ⟨?_, ?_⟩ <;>
        · simp only [collapseAux, hc', Bool.false_eq_true, if_false]
          simp [spacedOkAux, hc']
          exact ih.1

lemma collapseAux_fixed (l : List Char) :
    (spacedOkAux false l = true → collapseAux false l = l) ∧
      (spacedOkAux true l = true → collapseAux true l = l) := by
  induction l with
  | nil => exact ⟨fun _ => rfl, fun _ => rfl⟩
  | cons c cs ih =>
    by_cases hc : isPySpace c = true
    · constructor
      · intro h
        rw [spacedOkAux_cons_space hc] at h
        simp only [Bool.and_eq_true, beq_iff_eq] at h
        obtain ⟨⟨_, hsp⟩, htl⟩ := h
        rw [collapseAux_cons_space_false hc, ih.2 htl, hsp]
      · intro h
        rw [spacedOkAux_cons_space hc] at h
        simp at h
    · have hc' : isPySpace c = false := by simpa using hc
      constructor <;>
        · intro h
          rw [spacedOkAux_cons_nonspace hc'] at h
          rw [collapseAux_cons_nonspace hc', ih.1 h]

lemma dropWhile_spacedOk (l : List Char) (h : spacedOkAux false l = true) :
    spacedOkAux false (l.dropWhile isPySpace) = true := by
  induction l with
  | nil => exact h
  | cons c cs ih =>
    by_cases hc : isPySpace c = true
    · rw [spacedOkAux_cons_space hc] at h
      simp only [Bool.and_eq_true] at h
      rw [List.dropWhile_cons_of_pos hc]
      exact ih (spacedOkAux_mono h.2)
    · have hc' : isPySpace c = false := by simpa using hc
      rw [List.dropWhile_cons_of_neg (by simp [hc'])]
      exact h

lemma stripRight_spacedOk (l : List Char) :
    ∀ b, spacedOkAux b l = true → spacedOkAux b (stripRight l) = true := by
  induction l with
  | nil => intro b h; exact h
  | cons c cs ih =>
    intro b h
    cases hr : stripRight cs with
    | nil =>
      rw [stripRight_cons_nil hr]
      by_cases hc : isPySpace c = true
      · rw [if_pos hc]
        rfl
      · have hc2 : isPySpace c = false := by simpa using hc
        rw [if_neg hc]
        rw [spacedOkAux_cons_nonspace hc2]
        rfl
    | cons r0 rs =>
      rw [stripRight_cons_cons hr]
      by_cases hc : isPySpace c = true
      · rw [spacedOkAux_cons_space hc] at h
        simp only [Bool.and_eq_true, beq_iff_eq] at h
        obtain ⟨⟨hb, hsp⟩, htl⟩ := h
        have htail := ih true htl
        rw [hr] at htail
        rw [spacedOkAux_cons_space hc]
        simp [hb, hsp, htail]
      · have hc2 : isPySpace c = false := by simpa using hc
        rw [spacedOkAux_cons_nonspace hc2] at h
        have htail := ih false h
        rw [hr] at htail
        rw [spacedOkAux_cons_nonspace hc2]
        exact htail

lemma stripRight_idem (l : List Char) : stripRight (stripRight l) = stripRight l := by
  induction l with
  | nil => rfl
  | cons c cs ih =>
    cases hr : stripRight cs with
    | nil =>
      rw [stripRight_cons_nil hr]
      by_cases hc : isPySpace c = true
      · rw [if_pos hc]
        rfl
      · rw [if_neg hc, stripRight_cons_nil (show stripRight [] = [] from rfl), if_neg hc]
    | cons r0 rs =>
      have h2 : stripRight (r0 :: rs) = r0 :: rs := by
        rw [← hr, ih, hr]
      rw [stripRight_cons_cons hr, stripRight_cons_cons h2]

lemma stripRight_head (c : Char) (cs : List Char) :
    stripRight (c :: cs) = [] ∨ ∃ r, stripRight (c :: cs) = c :: r := by
  cases hr : stripRight cs with
  | nil =>
    rw [stripRight_cons_nil hr]
    by_cases hc : isPySpace c = true
    · rw [if_pos hc]
      exact Or.inl rfl
    · rw [if_neg hc]
      exact Or.inr ⟨[], rfl⟩
  | cons r0 rs => exact Or.inr ⟨r0 :: rs, stripRight_cons_cons hr c⟩

lemma dropWhile_head_false (l : List Char) (c : Char) (cs : List Char)
    (h : l.dropWhile isPySpace = c :: cs) : isPySpace c = false := by
  induction l with
  | nil => simp at h
  | cons a l ih =>
    by_cases ha : isPySpace a = true
    · rw [List.dropWhile_cons_of_pos ha] at h
      exact ih h
    · have ha' : isPySpace a = false := by simpa using ha
      rw [List.dropWhile_cons_of_neg (by simp [ha'])] at h
      cases h
      exact ha'

lemma stripPy_idem (l : List Char) : stripPy (stripPy l) = stripPy l := by
  unfold stripPy
  cases hx : l.dropWhile isPySpace with
  | nil => rfl
  | cons c cs =>
    have hc : isPySpace c = false := dropWhile_head_false l c cs hx
    rcases stripRight_head c cs with hnil | ⟨r, hr⟩
    · rw [hnil]
      rfl
    · rw [hr, List.dropWhile_cons_of_neg (by simp [hc]), ← hr, stripRight_idem]

/-! ### Membership lemmas for the normalizer -/

lemma mem_collapseAux (l : List Char) :
    ∀ b c, c ∈ collapseAux b l → c = ' ' ∨ (c ∈ l ∧ isPySpace c = false) := by
  induction l with
  | nil => intro b c h; simp [collapseAux] at h
  | cons a l ih =>
    intro b c h
    by_cases ha : isPySpace a = true
    · cases b with
      | true =>
        simp only [collapseAux, ha, if_true] at h
        rcases ih true c h with h' | ⟨hm, hs⟩
        · exact Or.inl h'
        · exact Or.inr ⟨List.mem_cons_of_mem a hm, hs⟩
      | false =>
        simp only [collapseAux, ha, if_true] at h
        rcases List.mem_cons.mp h with h' | h'
        · exact Or.inl h'
        · rcases ih true c h' with h'' | ⟨hm, hs⟩
          · exact Or.inl h''
          · exact Or.inr ⟨List.mem_cons_of_mem a hm, hs⟩
    · have ha' : isPySpace a = false := by simpa using ha
      simp only [collapseAux, ha', Bool.false_eq_true, if_false] at h
      rcases List.mem_cons.mp h with h' | h'
      · exact Or.inr ⟨h' ▸ List.mem_cons_self a l, h' ▸ ha'⟩
      · rcases ih false c h' with h'' | ⟨hm, hs⟩
        · exact Or.inl h''
        · exact Or.inr ⟨List.mem_cons_of_mem a hm, hs⟩

lemma mem_stripRight (l : List Char) : ∀ c, c ∈ stripRight l → c ∈ l := by
  induction l with
  | nil => intro c h; simp [stripRight] at h
  | cons a l ih =>
    intro c h
    cases hr : stripRight l with
    | nil =>
      rw [stripRight_cons_nil hr] at h
      by_cases ha : isPySpace a = true
      · rw [if_pos ha] at h
        simp at h
      · rw [if_neg ha] at h
        simp at h
        simp [h]
    | cons r0 rs =>
      rw [stripRight_cons_cons hr] at h
      rcases List.mem_cons.mp h with h2 | h2
      · simp [h2]
      · refine List.mem_cons_of_mem a (ih c ?_)
        rw [hr]
        exact h2

lemma mem_stripPy (l : List Char) (c : Char) (h : c ∈ stripPy l) : c ∈ l := by
  unfold stripPy at h
  exact (List.dropWhile_sublist isPySpace).subset (mem_stripRight _ c h)

/-- Any character of `cleanText s` is either the collapsing space or a
non-whitespace, non-control character of `s`. -/
lemma mem_cleanText (s : List Char) :
    ∀ c, c ∈ cleanText s →
      c = ' ' ∨ (c ∈ s ∧ isPySpace c = false ∧ isCtrl c = false) := by
  intro c h
  unfold cleanText at h
  by_cases hs : s = []
  · simp [hs] at h
  · rw [if_neg hs] at h
    have h3 := mem_stripPy _ _ h
    have h2 : c ∈ removeChar '\u200B' (replaceChar '\u00A0' ' ' (collapseWs (s.filter (fun x => !(isCtrl x))))) := by
      unfold removeChar at h3
      exact (List.mem_filter.mp h3).1
    have h1 : c ∈ replaceChar '\u00A0' ' ' (collapseWs (s.filter (fun x => !(isCtrl x)))) := by
      unfold removeChar at h2
      exact (List.mem_filter.mp h2).1
    unfold replaceChar at h1
    rcases List.mem_map.mp h1 with ⟨d, hd, hdc⟩
    rcases mem_collapseAux _ false d hd with hsp | ⟨hmem, hdns⟩
    · left
      rw [← hdc, hsp]
      simp [show ¬(' ' = '\u00A0') by decide]
    · have hdnb : d ≠ '\u00A0' := by
        intro hEq
        rw [hEq] at hdns
        exact absurd hdns (by decide)
      rw [if_neg hdnb] at hdc
      subst hdc
      rcases List.mem_filter.mp hmem with ⟨hin, hctl⟩
      exact Or.inr ⟨hin, hdns, by simpa using hctl⟩

/-- Dropping the zero-width-space and BOM replacements is a no-op when the
input contains neither character. -/
lemma cleanText_eq_core (s : List Char) (h1 : '\u200B' ∉ s) (h2 : '\uFEFF' ∉ s) :
    cleanText s = stripPy (collapseWs (s.filter (fun c => !(isCtrl c)))) := by
  by_cases hs : s = []
  · subst hs; rfl
  · unfold cleanText
    rw [if_neg hs]
    have hmem : ∀ c ∈ collapseWs (s.filter (fun x => !(isCtrl x))),
        c = ' ' ∨ (c ∈ s ∧ isPySpace c = false) := by
      intro c hc
      rcases mem_collapseAux _ false c hc with h | ⟨hm, hns⟩
      · exact Or.inl h
      · exact Or.inr ⟨(List.mem_filter.mp hm).1, hns⟩
    have hrep : replaceChar '\u00A0' ' ' (collapseWs (s.filter (fun x => !(isCtrl x)))) =
        collapseWs (s.filter (fun x => !(isCtrl x))) := by
      unfold replaceChar
      have hcong : ∀ c ∈ collapseWs (s.filter (fun x => !(isCtrl x))),
          (if c = '\u00A0' then ' ' else c) = id c := by
        intro c hc
        rcases hmem c hc with h | ⟨_, hns⟩
        · rw [h]
          simp [show ¬(' ' = '\u00A0') by decide]
        · have hne : ¬(c = '\u00A0') := by
            intro hEq
            rw [hEq] at hns
            exact absurd hns (by decide)
          simp [hne]
      rw [List.map_congr_left hcong, List.map_id]
    have hzw : removeChar '\u200B' (collapseWs (s.filter (fun x => !(isCtrl x)))) =
        collapseWs (s.filter (fun x => !(isCtrl x))) := by
      unfold removeChar
      rw [List.filter_eq_self]
      intro c hc
      rcases hmem c hc with h | ⟨hm, _⟩
      · rw [h]; decide
      · simp
        intro hEq
        rw [hEq] at hm
        exact h1 hm
    have hbm : removeChar '\uFEFF' (collapseWs (s.filter (fun x => !(isCtrl x)))) =
        collapseWs (s.filter (fun x => !(isCtrl x))) := by
      unfold removeChar
      rw [List.filter_eq_self]
      intro c hc
      rcases hmem c hc with h | ⟨hm, _⟩
      · rw [h]; decide
      · simp
        intro hEq
        rw [hEq] at hm
        exact h2 hm
    show stripPy (removeChar '\uFEFF' (removeChar '\u200B'
        (replaceChar '\u00A0' ' ' (collapseWs (s.filter (fun c => !(isCtrl c))))))) =
      stripPy (collapseWs (s.filter (fun c => !(isCtrl c))))
    rw [hrep, hzw, hbm]

/-- C4 fails: normalization is not idempotent.  On `"a \u200B b"` the first
pass turns `"a \u200B b"` into `"a  b"` (the zero-width space is removed after
whitespace was collapsed, fusing two space runs), and a second pass collapses
the double space to `"a b"`. -/
theorem C4_counterexample :
    cleanText (cleanText "a \u200B b".data) ≠ cleanText "a \u200B b".data := by
  decide

/-- C4, amended: `clean_text` is idempotent on every string that contains no
zero-width space (U+200B) and no byte-order mark (U+FEFF); these two
characters are removed only after whitespace collapsing, so around them a
first pass can leave a double space that a second pass would collapse. -/
theorem C4_amended_idempotent :
    ∀ s : List Char, '\u200B' ∉ s → '\uFEFF' ∉ s →
      cleanText (cleanText s) = cleanText s := by
  intro s h1 h2
  have hcore := cleanText_eq_core s h1 h2
  have hrz : '\u200B' ∉ cleanText s := by
    intro hmem
    rcases mem_cleanText s _ hmem with h | ⟨hin, _, _⟩
    · exact absurd h (by decide)
    · exact h1 hin
  have hrb : '\uFEFF' ∉ cleanText s := by
    intro hmem
    rcases mem_cleanText s _ hmem with h | ⟨hin, _, _⟩
    · exact absurd h (by decide)
    · exact h2 hin
  rw [cleanText_eq_core _ hrz hrb]
  have hfilt : (cleanText s).filter (fun c => !(isCtrl c)) = cleanText s := by
    rw [List.filter_eq_self]
    intro c hc
    rcases mem_cleanText s c hc with h | ⟨_, _, hctl⟩
    · rw [h]; decide
    · simp [hctl]
  rw [hfilt]
  have hsp : spacedOkAux false (cleanText s) = true := by
    rw [hcore]
    unfold stripPy collapseWs
    exact stripRight_spacedOk _ false
      (dropWhile_spacedOk _ (collapseAux_spacedOk _).1)
  rw [show collapseWs (cleanText s) = cleanText s from (collapseAux_fixed _).1 hsp]
  rw [hcore]
  exact stripPy_idem _

/-- Witness for C4: idempotence on a concrete string without the two
offending characters. -/
theorem C4_witness :
    cleanText (cleanText "  sample   text ".data) = cleanText "  sample   text ".data :=
  C4_amended_idempotent "  sample   text ".data (by decide) (by decide)

/-! ### Invariants of the traversal loop -/

/-- A text already in `processed_texts` makes the loop body a no-op. -/
lemma visitStep_seen (st : List Block × List (List Char)) (el : Node)
    (h : cleanText (getTextStrip el) ∈ st.2) : visitStep st el = st := by
  simp only [visitStep]
  rw [if_pos (Or.inr (Or.inr h))]

/-- Case analysis of the loop body: either nothing changes, or exactly one new
text enters the dedup set — with at most one block, carrying that text and
satisfying `emittedOk`, appended at the end. -/
lemma visitStep_split (st : List Block × List (List Char)) (el : Node) :
    visitStep st el = st ∨
    ∃ t, t ∉ st.2 ∧ (visitStep st el).2 = t :: st.2 ∧
      ((visitStep st el).1 = st.1 ∨
        ∃ b : Block, b.text = t ∧ emittedOk b ∧ (visitStep st el).1 = st.1 ++ [b]) := by
  by_cases h1 : cleanText (getTextStrip el) = [] ∨
      (cleanText (getTextStrip el)).length < 10 ∨ cleanText (getTextStrip el) ∈ st.2
  · left
    simp only [visitStep]
    rw [if_pos h1]
  · by_cases h2 : (cleanText (getTextStrip el)).length < 20 ∧
        tagName el ∈ (["a", "span", "div"] : List String)
    · left
      simp only [visitStep]
      rw [if_neg h1, if_pos h2]
    · right
      push_neg at h1
      obtain ⟨_, hlen, hnot⟩ := h1
      have h1' : ¬(cleanText (getTextStrip el) = [] ∨
          (cleanText (getTextStrip el)).length < 10 ∨
          cleanText (getTextStrip el) ∈ st.2) := by
        push_neg
        exact ⟨‹_›, hlen, hnot⟩
      by_cases h3 : tagName el ∈ headingTags
      · have hv : visitStep st el =
            (st.1 ++ [⟨tagName el, cleanText (getTextStrip el)⟩],
              cleanText (getTextStrip el) :: st.2) := by
          simp only [visitStep]
          rw [if_neg h1', if_neg h2, if_pos h3]
        exact ⟨cleanText (getTextStrip el), hnot, by rw [hv],
          Or.inr ⟨⟨tagName el, cleanText (getTextStrip el)⟩, rfl,
            Or.inl ⟨h3, hlen⟩, by rw [hv]⟩⟩
      · by_cases h4 : 30 < (cleanText (getTextStrip el)).length
        · have hv : visitStep st el =
              (st.1 ++ [⟨"paragraph", cleanText (getTextStrip el)⟩],
                cleanText (getTextStrip el) :: st.2) := by
            simp only [visitStep]
            rw [if_neg h1', if_neg h2, if_neg h3, if_pos h4]
          exact ⟨cleanText (getTextStrip el), hnot, by rw [hv],
            Or.inr ⟨⟨"paragraph", cleanText (getTextStrip el)⟩, rfl,
              Or.inr ⟨rfl, h4⟩, by rw [hv]⟩⟩
        · have hv : visitStep st el =
              (st.1, cleanText (getTextStrip el) :: st.2) := by
            simp only [visitStep]
            rw [if_neg h1', if_neg h2, if_neg h3, if_neg h4]
          exact ⟨cleanText (getTextStrip el), hnot, by rw [hv], Or.inl (by rw [hv])⟩

/-- The dedup set only grows along the traversal, and every block text stays
registered in it. -/
lemma foldl_visit_sub (els : List Node) :
    ∀ st : List Block × List (List Char),
      (∀ b ∈ st.1, b.text ∈ st.2) →
      ∀ b ∈ (List.foldl visitStep st els).1, b.text ∈ (List.foldl visitStep st els).2 := by
  induction els with
  | nil => intro st h; exact h
  | cons el els ih =>
    intro st h
    rw [List.foldl_cons]
    rcases visitStep_split st el with heq | ⟨t, _, hp, hblocks⟩
    · rw [heq]
      exact ih st h
    · refine ih (visitStep st el) ?_
      intro b hb
      rcases hblocks with hsame | ⟨b0, hbt, _, happ⟩
      · rw [hsame] at hb
        rw [hp]
        exact List.mem_cons_of_mem _ (h b hb)
      · rw [happ] at hb
        rcases List.mem_append.mp hb with hm | hm
        · rw [hp]
          exact List.mem_cons_of_mem _ (h b hm)
        · rw [List.mem_singleton.mp hm, hp, hbt]
          exact List.mem_cons_self _ _

/-- With all block texts registered in the set, the traversal preserves
global distinctness of block texts. -/
lemma foldl_visit_nodup (els : List Node) :
    ∀ st : List Block × List (List Char),
      (∀ b ∈ st.1, b.text ∈ st.2) →
      ((st.1.map Block.text).Nodup) →
      (((List.foldl visitStep st els).1.map Block.text).Nodup) := by
  induction els with
  | nil => intro st _ h2; exact h2
  | cons el els ih =>
    intro st h1 h2
    rw [List.foldl_cons]
    rcases visitStep_split st el with heq | ⟨t, hnot, hp, hblocks⟩
    · rw [heq]
      exact ih st h1 h2
    · refine ih (visitStep st el) ?_ ?_
      · intro b hb
        rcases hblocks with hsame | ⟨b0, hbt, _, happ⟩
        · rw [hsame] at hb
          rw [hp]
          exact List.mem_cons_of_mem _ (h1 b hb)
        · rw [happ] at hb
          rcases List.mem_append.mp hb with hm | hm
          · rw [hp]
            exact List.mem_cons_of_mem _ (h1 b hm)
          · rw [List.mem_singleton.mp hm, hp, hbt]
            exact List.mem_cons_self _ _
      · rcases hblocks with hsame | ⟨b0, hbt, _, happ⟩
        · rw [hsame]
          exact h2
        · rw [happ, List.map_append]
          rw [List.nodup_append]
          refine ⟨h2, by simp, ?_⟩
          intro a ha hamem
          have : a ∈ st.2 := by
            rcases List.mem_map.mp ha with ⟨b1, hb1, hab⟩
            rw [← hab]
            exact h1 b1 hb1
          simp at hamem
          rw [hamem, hbt] at this
          exact hnot this

/-- The traversal only appends blocks, and each appended block satisfies
`emittedOk`. -/
lemma foldl_visit_appends (els : List Node) :
    ∀ st : List Block × List (List Char),
      ∃ δ, (List.foldl visitStep st els).1 = st.1 ++ δ ∧ ∀ b ∈ δ, emittedOk b := by
  induction els with
  | nil => intro st; exact ⟨[], by simp, by simp⟩
  | cons el els ih =>
    intro st
    rw [List.foldl_cons]
    obtain ⟨δ1, hδ1, hok1⟩ := ih (visitStep st el)
    rcases visitStep_split st el with heq | ⟨t, _, _, hblocks⟩
    · rw [heq] at hδ1 ⊢
      exact ⟨δ1, hδ1, hok1⟩
    · rcases hblocks with hsame | ⟨b0, _, hbok, happ⟩
      · rw [hsame] at hδ1
        exact ⟨δ1, hδ1, hok1⟩
      · rw [happ] at hδ1
        refine ⟨[b0] ++ δ1, by rw [hδ1, List.append_assoc], ?_⟩
        intro b hb
        rcases List.mem_append.mp hb with hm | hm
        · rw [List.mem_singleton.mp hm]
          exact hbok
        · exact hok1 b hm

/-! ### Facts about the title, description and initial state -/

lemma emittedTitle_some (soup : NodeList) (t : List Char)
    (h : emittedTitle soup = some t) : t ≠ [] ∧ 3 < t.length := by
  unfold emittedTitle at h
  cases hf : findIn (tagIs "title") soup with
  | none => rw [hf] at h; simp at h
  | some n =>
    rw [hf] at h
    simp only at h
    split at h
    · obtain rfl := Option.some.inj h
      assumption
    · simp at h

lemma emittedDesc_some (soup : NodeList) (t : List Char)
    (h : emittedDesc soup = some t) : t ≠ [] ∧ 10 < t.length := by
  unfold emittedDesc at h
  cases hf : findIn (fun n => tagIs "meta" n && attrOf n "name" == some "description") soup with
  | none => rw [hf] at h; simp at h
  | some n =>
    rw [hf] at h
    simp only at h
    cases hc : attrOf n "content" with
    | none => rw [hc] at h; simp at h
    | some c =>
      rw [hc] at h
      simp only at h
      split at h
      · split at h
        · obtain rfl := Option.some.inj h
          assumption
        · simp at h
      · simp at h

lemma initState_sub (soup : NodeList) :
    ∀ b ∈ (initState soup).1, b.text ∈ (initState soup).2 := by
  unfold initState
  cases emittedTitle soup <;> cases emittedDesc soup <;> simp

lemma initState_nodup (soup : NodeList)
    (hne : emittedTitle soup = none ∨ emittedTitle soup ≠ emittedDesc soup) :
    (((initState soup).1.map Block.text).Nodup) := by
  unfold initState
  cases ht : emittedTitle soup with
  | none => cases emittedDesc soup <;> simp
  | some tt =>
    cases hd : emittedDesc soup with
    | none => simp
    | some dt =>
      rw [ht, hd] at hne
      rcases hne with h | h
      · simp at h
      · have htd : tt ≠ dt := by
          intro hEq
          rw [hEq] at h
          exact h rfl
        simp [htd]

lemma initState_title (soup : NodeList) (tt : List Char)
    (h : emittedTitle soup = some tt) :
    ∃ rest, (initState soup).1 = ⟨"title", tt⟩ :: rest ∧
      ∀ b ∈ rest, b.btype = "paragraph" := by
  unfold initState
  rw [h]
  cases emittedDesc soup with
  | none => exact ⟨[], rfl, by simp⟩
  | some dt =>
    refine ⟨[⟨"paragraph", dt⟩], rfl, ?_⟩
    intro b hb
    rw [List.mem_singleton.mp hb]

lemma initState_lenOk (soup : NodeList) :
    ∀ b ∈ (initState soup).1, blockLenOk b = true := by
  unfold initState
  cases ht : emittedTitle soup with
  | none =>
    cases hd : emittedDesc soup with
    | none => simp
    | some dt =>
      obtain ⟨hne, hlen⟩ := emittedDesc_some soup dt hd
      intro b hb
      simp at hb
      rw [hb]
      simp [blockLenOk, hne, Nat.le_of_lt hlen]
  | some tt =>
    obtain ⟨htne, htlen⟩ := emittedTitle_some soup tt ht
    cases hd : emittedDesc soup with
    | none =>
      intro b hb
      simp at hb
      rw [hb]
      simp [blockLenOk, htne, htlen]
    | some dt =>
      obtain ⟨hdne, hdlen⟩ := emittedDesc_some soup dt hd
      intro b hb
      simp at hb
      rcases hb with hb | hb <;> rw [hb]
      · simp [blockLenOk, htne, htlen]
      · simp [blockLenOk, hdne, Nat.le_of_lt hdlen]

/-! ### Facts about appended blocks -/

lemma emittedOk_not_title {b : Block} (h : emittedOk b) : b.btype ≠ "title" := by
  rcases h with ⟨hm, _⟩ | ⟨he, _⟩
  · intro hT
    rw [hT] at hm
    exact absurd hm (by decide)
  · intro hT
    rw [hT] at he
    exact absurd he (by decide)

lemma emittedOk_lenOk {b : Block} (h : emittedOk b) : blockLenOk b = true := by
  have hnt := emittedOk_not_title h
  have hlen : 10 ≤ b.text.length := by
    rcases h with ⟨_, h10⟩ | ⟨_, h30⟩
    · exact h10
    · omega
  have hne : b.text.isEmpty = false := by
    cases hbt : b.text with
    | nil => rw [hbt] at hlen; simp at hlen
    | cons x xs => rfl
  unfold blockLenOk
  rw [if_neg hnt]
  simp [hne, hlen]

/-- Destructuring a successful extraction into root, initial state and fold. -/
lemma extract_full_eq (doc : NodeList) (pr : List Block × List (List Char))
    (h : extract_full doc = some pr) :
    ∃ root, mainContentOf (scrubList doc) = some root ∧
      pr = List.foldl visitStep (initState (scrubList doc))
        (findAllIn (fun n => tagName n ∈ targetTags) (childrenOf root)) := by
  simp only [extract_full] at h
  cases hm : mainContentOf (scrubList doc) with
  | none => rw [hm] at h; simp at h
  | some root =>
    rw [hm] at h
    exact ⟨root, rfl, (Option.some.inj h).symm⟩

lemma extract_content_full (doc : NodeList) (cs : List Block)
    (h : extract_content doc = some cs) :
    ∃ procs, extract_full doc = some (cs, procs) := by
  unfold extract_content at h
  cases hf : extract_full doc with
  | none => rw [hf] at h; simp at h
  | some pr =>
    rw [hf] at h
    simp at h
    exact ⟨pr.2, by rw [← h]⟩

/-! ### The remaining claims -/

/-- C1, amended: no two blocks of an extracted ContentStructure carry the same
text, except that the meta-description paragraph may duplicate the title text
(it is emitted without a dedup check): whenever the emitted title text does
not coincide with the emitted description text, global uniqueness holds. -/
theorem C1_amended_nodup :
    ∀ (doc : NodeList) (cs : List Block),
      extract_content doc = some cs →
      (emittedTitle (scrubList doc) = none ∨
        emittedTitle (scrubList doc) ≠ emittedDesc (scrubList doc)) →
      ((cs.map Block.text).Nodup) := by
  intro doc cs hex hne
  obtain ⟨procs, hfull⟩ := extract_content_full doc cs hex
  obtain ⟨root, _, hpr⟩ := extract_full_eq doc (cs, procs) hfull
  have h1 := initState_sub (scrubList doc)
  have h2 := initState_nodup (scrubList doc) hne
  have := foldl_visit_nodup
    (findAllIn (fun n => tagName n ∈ targetTags) (childrenOf root))
    (initState (scrubList doc)) h1 h2
  have hcs : cs = (List.foldl visitStep (initState (scrubList doc))
      (findAllIn (fun n => tagName n ∈ targetTags) (childrenOf root))).1 :=
    congrArg Prod.fst hpr
  rw [hcs]
  exact this

/-- Witness for C1: the Acme page has distinct texts throughout. -/
theorem C1_witness : ((acmeBlocks.map Block.text).Nodup) :=
  C1_amended_nodup acmeDoc acmeBlocks (by decide) (by decide)

/-- C3, amended: the dedup check suppresses a visited element exactly when its
text is already in `processed_texts`, but the set records every text that
passed the length/tag filters — emitted or not (the source adds the text
before deciding whether to emit).  So every emitted block's text is in the
final set, while the set may hold texts of blocks that were never emitted,
and an element whose text equals an earlier dropped text IS suppressed. -/
theorem C3_amended_dedup_set :
    (∀ (st : List Block × List (List Char)) (el : Node),
        cleanText (getTextStrip el) ∈ st.2 → visitStep st el = st) ∧
    (∀ (doc : NodeList) (cs : List Block) (procs : List (List Char)),
        extract_full doc = some (cs, procs) → ∀ b ∈ cs, b.text ∈ procs) := by
  constructor
  · exact visitStep_seen
  · intro doc cs procs hfull b hb
    obtain ⟨root, _, hpr⟩ := extract_full_eq doc (cs, procs) hfull
    have h1 := initState_sub (scrubList doc)
    have := foldl_visit_sub
      (findAllIn (fun n => tagName n ∈ targetTags) (childrenOf root))
      (initState (scrubList doc)) h1
    have hcs : cs = (List.foldl visitStep (initState (scrubList doc))
        (findAllIn (fun n => tagName n ∈ targetTags) (childrenOf root))).1 :=
      congrArg Prod.fst hpr
    have hps : procs = (List.foldl visitStep (initState (scrubList doc))
        (findAllIn (fun n => tagName n ∈ targetTags) (childrenOf root))).2 :=
      congrArg Prod.snd hpr
    rw [hps]
    exact this b (hcs ▸ hb)

/-- Witness for C3: a seen text is skipped, and an emitted text of the Acme
extraction is in its final dedup set. -/
theorem C3_witness :
    visitStep dupSeenState dupSeenElem = dupSeenState ∧
      "Acme Co".data ∈ acmeProcs :=
  ⟨C3_amended_dedup_set.1 dupSeenState dupSeenElem (by decide),
    C3_amended_dedup_set.2 acmeDoc acmeBlocks acmeProcs (by decide)
      ⟨"title", "Acme Co".data⟩ (by decide)⟩

/-- C5: if the (scrubbed) document's `<title>` lookup emits a title text (the
first `<title>` element, non-empty normalized text of length > 3), then the
extracted structure starts with that title block, and it is the only block of
kind `title` in the whole structure. -/
theorem C5_title_first :
    ∀ (doc : NodeList) (cs : List Block) (tt : List Char),
      extract_content doc = some cs →
      emittedTitle (scrubList doc) = some tt →
      cs.head? = some ⟨"title", tt⟩ ∧
        cs.filter (fun b => b.btype == "title") = [⟨"title", tt⟩] := by
  intro doc cs tt hex htitle
  obtain ⟨procs, hfull⟩ := extract_content_full doc cs hex
  obtain ⟨root, _, hpr⟩ := extract_full_eq doc (cs, procs) hfull
  obtain ⟨rest, hinit, hrest⟩ := initState_title (scrubList doc) tt htitle
  obtain ⟨δ, hδ, hδok⟩ := foldl_visit_appends
    (findAllIn (fun n => tagName n ∈ targetTags) (childrenOf root))
    (initState (scrubList doc))
  have hcs0 : cs = (List.foldl visitStep (initState (scrubList doc))
      (findAllIn (fun n => tagName n ∈ targetTags) (childrenOf root))).1 :=
    congrArg Prod.fst hpr
  have hcs : cs = ⟨"title", tt⟩ :: (rest ++ δ) := by
    rw [hcs0, hδ, hinit]
    rfl
  constructor
  · rw [hcs]
    rfl
  · rw [hcs]
    have hhead : ((⟨"title", tt⟩ : Block).btype == "title") = true := by simp
    rw [List.filter_cons, if_pos hhead]
    have hnil : (rest ++ δ).filter (fun b => b.btype == "title") = [] := by
      rw [List.filter_eq_nil_iff]
      intro b hb
      rcases List.mem_append.mp hb with hm | hm
      · have := hrest b hm
        simp [this]
      · have := emittedOk_not_title (hδok b hm)
        simp [this]
    rw [hnil]

/-- Witness for C5: the Acme structure starts with its title block and has no
other `title` block. -/
theorem C5_witness :
    acmeBlocks.head? = some ⟨"title", "Acme Co".data⟩ ∧
      acmeBlocks.filter (fun b => b.btype == "title") = [⟨"title", "Acme Co".data⟩] :=
  C5_title_first acmeDoc acmeBlocks "Acme Co".data (by decide) (by decide)

/-- C7: every block of an extracted structure has non-empty text obeying the
length policy: length > 3 for the `title` block, length ≥ 10 for every other
block (the meta-description paragraph in fact has length > 10, and traversal
paragraphs length > 30, both of which satisfy the ≥ 10 bound). -/
theorem C7_length_policy :
    ∀ (doc : NodeList) (cs : List Block),
      extract_content doc = some cs → cs.all blockLenOk = true := by
  intro doc cs hex
  obtain ⟨procs, hfull⟩ := extract_content_full doc cs hex
  obtain ⟨root, _, hpr⟩ := extract_full_eq doc (cs, procs) hfull
  obtain ⟨δ, hδ, hδok⟩ := foldl_visit_appends
    (findAllIn (fun n => tagName n ∈ targetTags) (childrenOf root))
    (initState (scrubList doc))
  have hcs : cs = (initState (scrubList doc)).1 ++ δ := by
    have hcs0 : cs = (List.foldl visitStep (initState (scrubList doc))
        (findAllIn (fun n => tagName n ∈ targetTags) (childrenOf root))).1 :=
      congrArg Prod.fst hpr
    rw [hcs0, hδ]
  rw [hcs, List.all_eq_true]
  intro b hb
  rcases List.mem_append.mp hb with hm | hm
  · exact initState_lenOk (scrubList doc) b hm
  · exact emittedOk_lenOk (hδok b hm)

/-- Witness for C7: the Acme blocks satisfy the length policy. -/
theorem C7_witness : acmeBlocks.all blockLenOk = true :=
  C7_length_policy acmeDoc acmeBlocks (by decide)

end Scrapper
